import Mathlib

/-!
# Verification of the jalapeno frontend services

A shallow embedding, in Lean 4, of the two frontend services of the
jalapeno repository that the specification's claims are about:

* `api.chatStream` (src/frontend/src/services/api.ts): the streaming chat
  consumer.  Its read loop buffers partial lines across chunk boundaries,
  splits on `\n`, and for each complete line beginning with `data: `
  parses the remainder as JSON and dispatches on the payload's `type`
  field to one of five optional callbacks.

* `startStatusProgression` and its helpers
  (src/frontend/src/services/orderStatusService.ts): the mock order status
  progression that saves a `pending` timestamp synchronously and schedules
  deferred remote status updates (confirmed/shipped/delivered).

Modelling conventions:

* JavaScript strings are modelled as `List Char`; chunk boundaries are
  arbitrary splits of the character stream.  (`TextDecoder` with
  `{stream: true}` guarantees that any byte-level chunking of a stream,
  including splits inside a multi-byte character, decodes to string chunks
  whose concatenation is the decoded whole stream, so quantifying over all
  string-level chunkings covers all byte-level chunkings.)
* `JSON.parse` is modelled by `jsonParse`, an executable parser of the
  JSON grammar used by ECMAScript `JSON.parse` (values, objects with
  later duplicate keys overriding earlier ones at lookup, arrays, strings
  with escapes, numbers kept as their lexeme, `true`/`false`/`null`,
  the four JSON whitespace characters).  A `\uXXXX` escape that is a lone
  surrogate is modelled as U+FFFD since Lean `Char` holds scalar values.
* Callback invocations are modelled as an emitted event list `SSEEvent`;
  a JS argument that may be `undefined` (a missing payload field) is an
  `Option Json` with `none` for `undefined`.
* `localStorage` is modelled as a partial map from keys to the stored
  `StatusTimestamps` object (the `JSON.stringify`/`JSON.parse` round trip
  on such string-to-string records is the identity).
-/

/-- The JSON value model for `JSON.parse`.  Object members keep their
source order (with possible duplicate keys); numbers keep their lexeme,
since no consumer of the stream inspects numeric values. -/
inductive Json where
  | null : Json
  | bool (b : Bool) : Json
  | num (lexeme : List Char) : Json
  | str (s : List Char) : Json
  | arr (elems : List Json) : Json
  | obj (members : List (List Char × Json)) : Json

/-- JSON whitespace as accepted by `JSON.parse`: space, tab, LF, CR. -/
def isJsonWs (c : Char) : Bool :=
  c == ' ' || c == '\t' || c == '\n' || c == '\r'

/-- Skip leading JSON whitespace. -/
def skipWs : List Char → List Char
  | [] => []
  | c :: cs => if isJsonWs c then skipWs cs else c :: cs

/-- Value of a hex digit, as in a `\uXXXX` escape. -/
def hexVal (c : Char) : Option Nat :=
  if '0' ≤ c ∧ c ≤ '9' then some (c.toNat - '0'.toNat)
  else if 'a' ≤ c ∧ c ≤ 'f' then some (c.toNat - 'a'.toNat + 10)
  else if 'A' ≤ c ∧ c ≤ 'F' then some (c.toNat - 'A'.toNat + 10)
  else none

/-- Code point of a 4-hex-digit escape. -/
def hex4 (h1 h2 h3 h4 : Char) : Option Nat := do
  let a ← hexVal h1
  let b ← hexVal h2
  let c ← hexVal h3
  let d ← hexVal h4
  pure (((a * 16 + b) * 16 + c) * 16 + d)

/-- A code point as a `Char`; a value that is not a Unicode scalar value
(a lone surrogate) becomes U+FFFD, the closest `Char` model of an
ECMAScript string holding a lone surrogate. -/
def charOfCode (n : Nat) : Char :=
  if n < 0xd800 ∨ (0xe000 ≤ n ∧ n < 0x110000) then
    Char.ofNat n
  else
    Char.ofNat 0xfffd

/-- Read a `\uXXXX` escape at the head of the input, when one is there.
`none` is a syntax error (a `\u` with bad hex digits); `some none` means
the input does not start with a `\u` escape. -/
def readUnicodeEscape : List Char → Option (Option (Nat × List Char))
  | '\\' :: 'u' :: a :: b :: c :: d :: rest =>
    match hex4 a b c d with
    | some v => some (some (v, rest))
    | none => none
  | _ => some none

/-- Parse the body of a JSON string after the opening quote: returns the
decoded contents and the remainder after the closing quote.  Control
characters below U+0020 must be escaped; the escapes are exactly those of
the JSON grammar; a high-surrogate escape followed by a low-surrogate
escape decodes as the paired code point.  The fuel argument only bounds
recursion; every step consumes at least one character, so callers pass
the input length as fuel. -/
def parseStringBody : Nat → List Char → Option (List Char × List Char)
  | 0, _ => none
  | _, [] => none
  | _ + 1, '"' :: rest => some ([], rest)
  | fuel + 1, '\\' :: esc =>
    match esc with
    | '"' :: rest => (parseStringBody fuel rest).map (fun (s, r) => ('"' :: s, r))
    | '\\' :: rest => (parseStringBody fuel rest).map (fun (s, r) => ('\\' :: s, r))
    | '/' :: rest => (parseStringBody fuel rest).map (fun (s, r) => ('/' :: s, r))
    | 'b' :: rest => (parseStringBody fuel rest).map (fun (s, r) => ('\x08' :: s, r))
    | 'f' :: rest => (parseStringBody fuel rest).map (fun (s, r) => ('\x0c' :: s, r))
    | 'n' :: rest => (parseStringBody fuel rest).map (fun (s, r) => ('\n' :: s, r))
    | 'r' :: rest => (parseStringBody fuel rest).map (fun (s, r) => ('\r' :: s, r))
    | 't' :: rest => (parseStringBody fuel rest).map (fun (s, r) => ('\t' :: s, r))
    | 'u' :: h1 :: h2 :: h3 :: h4 :: rest =>
      match hex4 h1 h2 h3 h4 with
      | none => none
      | some hi =>
        match readUnicodeEscape rest with
        | none => none
        | some (some (lo, rest2)) =>
          if 0xd800 ≤ hi ∧ hi ≤ 0xdbff ∧ 0xdc00 ≤ lo ∧ lo ≤ 0xdfff then
            (parseStringBody fuel rest2).map (fun (s, r) =>
              (charOfCode (0x10000 + (hi - 0xd800) * 0x400 + (lo - 0xdc00)) :: s, r))
          else
            (parseStringBody fuel rest2).map (fun (s, r) =>
              (charOfCode hi :: charOfCode lo :: s, r))
        | some none => (parseStringBody fuel rest).map (fun (s, r) => (charOfCode hi :: s, r))
    | _ => none
  | fuel + 1, c :: rest =>
    if c.toNat < 0x20 then none
    else (parseStringBody fuel rest).map (fun (s, r) => (c :: s, r))

/-- Longest leading run of decimal digits. -/
def spanDigits : List Char → List Char × List Char
  | [] => ([], [])
  | c :: cs =>
    if c.isDigit then
      let (ds, rest) := spanDigits cs
      (c :: ds, rest)
    else ([], c :: cs)

/-- Parse a JSON number: `-? int frac? exp?`, returning its lexeme and
the remainder.  A leading zero may not be followed by more digits. -/
def parseNumber (cs : List Char) : Option (List Char × List Char) :=
  let (sign, cs1) :=
    match cs with
    | '-' :: r => (['-'], r)
    | _ => (([] : List Char), cs)
  match cs1 with
  | [] => none
  | c :: r =>
    if c = '0' then
      -- int part "0": must not be followed by a digit
      match r with
      | d :: _ =>
        if d.isDigit then none
        else (parseFracExp r).map (fun (fe, rest) => (sign ++ ['0'] ++ fe, rest))
      | [] => some (sign ++ ['0'], [])
    else if c.isDigit then
      let (ds, r2) := spanDigits r
      (parseFracExp r2).map (fun (fe, rest) => (sign ++ (c :: ds) ++ fe, rest))
    else none
where
  /-- Optional fraction and exponent of a JSON number. -/
  parseFracExp (cs : List Char) : Option (List Char × List Char) :=
    let (frac, cs1) :=
      match cs with
      | '.' :: r =>
        match spanDigits r with
        | ([], _) => (none, cs)
        | (ds, rest) => (some ('.' :: ds), rest)
      | _ => (none, cs)
    match frac with
    | none =>
      match cs with
      | '.' :: _ => none  -- a dot with no digits is a syntax error
      | _ => (parseExp cs).map id
    | some f => (parseExp cs1).map (fun (e, rest) => (f ++ e, rest))
  /-- Optional exponent of a JSON number. -/
  parseExp (cs : List Char) : Option (List Char × List Char) :=
    match cs with
    | 'e' :: r => parseExpTail ['e'] r
    | 'E' :: r => parseExpTail ['E'] r
    | _ => some ([], cs)
  /-- Sign and digits after `e`/`E`. -/
  parseExpTail (e : List Char) (cs : List Char) : Option (List Char × List Char) :=
    let (sign, cs1) :=
      match cs with
      | '+' :: r => (['+'], r)
      | '-' :: r => (['-'], r)
      | _ => (([] : List Char), cs)
    match spanDigits cs1 with
    | ([], _) => none
    | (ds, rest) => some (e ++ sign ++ ds, rest)

mutual

/-- Parse a JSON value (after skipping leading whitespace), returning the
value and the remainder.  `fuel` bounds the recursion depth; `jsonParse`
supplies more fuel than any input can consume. -/
def parseValue : Nat → List Char → Option (Json × List Char)
  | 0, _ => none
  | fuel + 1, cs =>
    match skipWs cs with
    | 't' :: 'r' :: 'u' :: 'e' :: r => some (.bool true, r)
    | 'f' :: 'a' :: 'l' :: 's' :: 'e' :: r => some (.bool false, r)
    | 'n' :: 'u' :: 'l' :: 'l' :: r => some (.null, r)
    | '"' :: r => (parseStringBody (r.length + 1) r).map (fun (s, rest) => (.str s, rest))
    | '[' :: r =>
      match skipWs r with
      | ']' :: rest => some (.arr [], rest)
      | r2 => (parseElems fuel r2).map (fun (vs, rest) => (.arr vs, rest))
    | '{' :: r =>
      match skipWs r with
      | '}' :: rest => some (.obj [], rest)
      | r2 => (parseMembers fuel r2).map (fun (ms, rest) => (.obj ms, rest))
    | cs2 => (parseNumber cs2).map (fun (lex, rest) => (.num lex, rest))

/-- Parse one or more comma-separated array elements and the closing `]`. -/
def parseElems : Nat → List Char → Option (List Json × List Char)
  | 0, _ => none
  | fuel + 1, cs => do
    let (v, r) ← parseValue fuel cs
    match skipWs r with
    | ',' :: r2 => (parseElems fuel r2).map (fun (vs, rest) => (v :: vs, rest))
    | ']' :: rest => some ([v], rest)
    | _ => none

/-- Parse one or more comma-separated object members and the closing `}`. -/
def parseMembers : Nat → List Char → Option (List (List Char × Json) × List Char)
  | 0, _ => none
  | fuel + 1, cs =>
    match skipWs cs with
    | '"' :: r => do
      let (k, r2) ← parseStringBody (r.length + 1) r
      match skipWs r2 with
      | ':' :: r3 => do
        let (v, r4) ← parseValue fuel r3
        match skipWs r4 with
        | ',' :: r5 => (parseMembers fuel r5).map (fun (ms, rest) => ((k, v) :: ms, rest))
        | '}' :: rest => some ([(k, v)], rest)
        | _ => none
      | _ => none
    | _ => none

end

/-- The model of ECMAScript `JSON.parse` on a whole text: one value with
optional surrounding whitespace; anything left over is a syntax error
(`none` models the thrown `SyntaxError`). -/
def jsonParse (cs : List Char) : Option Json :=
  match parseValue (2 * cs.length + 2) cs with
  | some (v, rest) => if skipWs rest = [] then some v else none
  | none => none

/-- JavaScript member read `obj[k]` on a parsed JSON value: on an object,
the last member with the key wins (as `JSON.parse` keeps the last
duplicate); on any non-object the property is `undefined` (`none`). -/
def jsGet (j : Json) (k : List Char) : Option Json :=
  match j with
  | .obj ms => ms.foldl (fun acc kv => if kv.1 = k then some kv.2 else acc) none
  | _ => none

/-- One observed callback invocation of `chatStream`.  The argument is the
JavaScript value passed to the callback; `none` is `undefined` (the
payload field was absent). -/
inductive SSEEvent where
  | text (content : Option Json)
  | suggestions (sugg : Option Json)
  | cartAdd (items : Option Json)
  | done
  | error (message : Option Json)

/-- `p.startsWithChars s`: does `s` begin with `p`?  (The model of
`line.startsWith('data: ')`.) -/
def startsWithChars : List Char → List Char → Bool
  | [], _ => true
  | _ :: _, [] => false
  | p :: ps, c :: cs => p == c && startsWithChars ps cs

/-- The significant-line marker `'data: '` of the SSE framing. -/
def dataMarker : List Char := "data: ".toList

/-- The `if`/`else if` chain on `data.type` inside the `try` block: at
most one callback fires, selected by the payload's `type` member.
Reading `data.type` on a parsed `null` throws a `TypeError`, which the
surrounding `catch` swallows, so a `null` payload emits nothing. -/
def dispatchPayload : Json → List SSEEvent
  | .null => []
  | j =>
    match jsGet j "type".toList with
    | some (Json.str t) =>
      if t = "text".toList then [.text (jsGet j "content".toList)]
      else if t = "suggestions".toList then [.suggestions (jsGet j "suggestions".toList)]
      else if t = "cart_add".toList then [.cartAdd (jsGet j "items".toList)]
      else if t = "done".toList then [.done]
      else if t = "error".toList then [.error (jsGet j "message".toList)]
      else []
    | _ => []

/-- Processing of one complete line by `chatStream`'s inner loop: lines
not starting with `data: ` are ignored; otherwise `JSON.parse` of the
rest of the line (a parse error is caught: the line is only logged and
skipped) and the dispatch chain runs on the parsed payload. -/
def processLine (line : List Char) : List SSEEvent :=
  if startsWithChars dataMarker line then
    match jsonParse (line.drop 6) with
    | none => []
    | some j => dispatchPayload j
  else []

/-- `consHead c ls` prepends `c` to the first element of `ls`
(used to state how `splitOnNl` builds its head). -/
def consHead (c : Char) : List (List Char) → List (List Char)
  | [] => [[c]]
  | l :: ls => (c :: l) :: ls

/-- `glueHead p ls` prepends `p` to the first element of `ls`. -/
def glueHead (p : List Char) : List (List Char) → List (List Char)
  | [] => [p]
  | l :: ls => (p ++ l) :: ls

/-- The model of `buffer.split('\n')`: the (always nonempty) list of
newline-separated segments. -/
def splitOnNl : List Char → List (List Char)
  | [] => [[]]
  | c :: cs =>
    if c = '\n' then [] :: splitOnNl cs
    else consHead c (splitOnNl cs)

/-- One iteration of `chatStream`'s `while` loop after a read delivers
`chunk`: append to the carried buffer, split on `'\n'`, keep the last
(possibly incomplete) segment as the new buffer (`lines.pop() || ''`),
and process every complete line.  Returns the new buffer and the events
emitted, in order. -/
def chatStreamStep (buffer chunk : List Char) : List Char × List SSEEvent :=
  let lines := splitOnNl (buffer ++ chunk)
  (lines.getLastD [], lines.dropLast.flatMap processLine)

/-- `chatStream`'s read loop over the remaining chunks, carrying the line
buffer; on transport close (`done`) the loop breaks and the leftover
buffer is discarded. -/
def chatStreamRun : List Char → List (List Char) → List SSEEvent
  | _, [] => []
  | buffer, chunk :: chunks =>
    let (buffer', events) := chatStreamStep buffer chunk
    events ++ chatStreamRun buffer' chunks

/-- The full event trace of `chatStream` on a decoded chunk sequence. -/
def chatStreamEvents (chunks : List (List Char)) : List SSEEvent :=
  chatStreamRun [] chunks

/-- The events of processing every complete line of a single text. -/
def lineEvents (s : List Char) : List SSEEvent :=
  (splitOnNl s).dropLast.flatMap processLine

/-- Join complete lines into a stream text, `'\n'`-terminating each. -/
def joinNl (lines : List (List Char)) : List Char :=
  (lines.map (fun l => l ++ ['\n'])).flatten

/-- A `done` or `error` event (the payloads the spec calls terminal). -/
def isTerminalEvent : SSEEvent → Bool
  | .done => true
  | .error _ => true
  | _ => false

/-- Does the trace invoke no further callback once a `done` or `error`
payload has been processed? -/
def noCallbackAfterTerminal : List SSEEvent → Bool
  | [] => true
  | e :: es => if isTerminalEvent e then es.isEmpty else noCallbackAfterTerminal es

/-- Does the payload's `type` member select a branch of `chatStream`'s
`if`/`else if` dispatch chain? -/
def hasKnownType (j : Json) : Bool :=
  match jsGet j "type".toList with
  | some (Json.str t) =>
    t == "text".toList || t == "suggestions".toList || t == "cart_add".toList ||
      t == "done".toList || t == "error".toList
  | _ => false

/-- The wire form of a `done` payload line. -/
def doneLine : List Char := "data: \x7b\"type\":\"done\"\x7d".toList

/-- The wire form of an `error` payload line with message `"boom"`. -/
def errorLine : List Char := "data: \x7b\"type\":\"error\",\"message\":\"boom\"\x7d".toList

/-!
## The order status service (orderStatusService.ts)

`localStorage` is a partial map from keys to the stored per-order
timestamp object; a JavaScript object is an insertion-ordered association
list with unique keys (`objSet` overwrites in place, `objGet` finds the
key).  Wall-clock timestamps (`new Date().toISOString()`) are an opaque
`String` argument `now`.
-/

/-- The `localStorage` model: per-order timestamp objects by key.  (The
code stores `JSON.stringify` of the object and re-parses on read; on
these string-to-string records that round trip is the identity, so the
store holds the object itself.) -/
def Store : Type := String → Option (List (String × String))

/-- Status progression delays in ms from order creation
(`STATUS_DELAYS`). -/
def STATUS_DELAYS : List (String × Nat) :=
  [("confirmed", 5000), ("shipped", 15000), ("delivered", 30000)]

/-- The ordered status list (`STATUS_ORDER`). -/
def STATUS_ORDER : List String :=
  ["pending", "confirmed", "shipped", "delivered"]

/-- `getStorageKey`: the per-order `localStorage` key. -/
def getStorageKey (orderId : Nat) : String :=
  "order_timestamps_" ++ toString orderId

/-- JavaScript `obj[k] = v` on an object: overwrite in place or append. -/
def objSet : List (String × String) → String → String → List (String × String)
  | [], k, v => [(k, v)]
  | (k', v') :: rest, k, v =>
    if k' = k then (k', v) :: rest else (k', v') :: objSet rest k v

/-- JavaScript `obj[k]` on an object with unique keys. -/
def objGet : List (String × String) → String → Option String
  | [], _ => none
  | (k', v') :: rest, k => if k' = k then some v' else objGet rest k

/-- `saveTimestamp`: read the order's timestamp object (an absent entry
parses as `{}`), set `timestamps[status]` to the current time, and write
it back. -/
def saveTimestamp (store : Store) (orderId : Nat) (status now : String) : Store :=
  fun k =>
    if k = getStorageKey orderId then
      some (objSet ((store (getStorageKey orderId)).getD []) status now)
    else store k

/-- `getStatusTimestamps`: the order's timestamp object, `{}` if absent. -/
def getStatusTimestamps (store : Store) (orderId : Nat) : List (String × String) :=
  (store (getStorageKey orderId)).getD []

/-- The `forEach` over `Object.entries(STATUS_DELAYS)` (entries iterate
in insertion order): one `window.setTimeout` registration per entry, with
that entry's delay, measured from the call, i.e. from order creation. -/
def scheduledStatusUpdates : List (String × Nat) :=
  STATUS_DELAYS.foldl (fun acc sd => acc ++ [sd]) []

/-- `startStatusProgression` up to its timer callbacks: synchronously
save the `pending` timestamp, and register the deferred status updates.
Returns the updated store and the registered timers. -/
def startStatusProgression (store : Store) (orderId : Nat) (now : String) :
    Store × List (String × Nat) :=
  (saveTimestamp store orderId "pending" now, scheduledStatusUpdates)

/-- The `statusSequence` array of the chained variant of
`startStatusProgression`, built from `STATUS_DELAYS` lookups. -/
def statusSequence : List (String × Nat) :=
  [("confirmed", (STATUS_DELAYS.lookup "confirmed").getD 0),
   ("shipped", (STATUS_DELAYS.lookup "shipped").getD 0),
   ("delivered", (STATUS_DELAYS.lookup "delivered").getD 0)]

/-- The `setTimeout` delay used by `processNextStatus` for step `index`:
`index === 0 ? delay : statusSequence[index].delay -
statusSequence[index - 1].delay`. -/
def chainRelativeDelay (index : Nat) : Nat :=
  if index = 0 then (statusSequence.getD 0 ("", 0)).2
  else (statusSequence.getD index ("", 0)).2 - (statusSequence.getD (index - 1) ("", 0)).2

/-- When the step-`index` timer of the chained variant fires, in ms from
order creation, idealizing each remote update as instantaneous (step
`i + 1` is scheduled only after step `i` settles, adding its relative
delay). -/
def chainFireTime : Nat → Nat
  | 0 => chainRelativeDelay 0
  | i + 1 => chainFireTime i + chainRelativeDelay (i + 1)

/-- One observable action of a timer callback of the chained
`processNextStatus`. -/
inductive StatusStepEvent where
  | apiCall (status : String)
  | save (status : String)
  | dispatchEvent (status : String)
  | logError (status : String)
deriving DecidableEq

/-- The trace of the chained `processNextStatus` over the remaining
steps, given which remote updates succeed (`ok`): each step awaits
`api.updateOrderStatus`; on success it saves the timestamp and
dispatches the `orderStatusChange` event, on failure it only logs; in
both branches it continues with the next step. -/
def processNextStatus (ok : String → Bool) : List (String × Nat) → List StatusStepEvent
  | [] => []
  | (status, _) :: rest =>
    if ok status then
      StatusStepEvent.apiCall status :: StatusStepEvent.save status ::
        StatusStepEvent.dispatchEvent status :: processNextStatus ok rest
    else
      StatusStepEvent.apiCall status :: StatusStepEvent.logError status ::
        processNextStatus ok rest

theorem consHead_ne_nil (c : Char) (ls : List (List Char)) : consHead c ls ≠ [] := by
  cases ls <;> simp [consHead]

theorem glueHead_ne_nil (p : List Char) (ls : List (List Char)) : glueHead p ls ≠ [] := by
  cases ls <;> simp [glueHead]

theorem splitOnNl_ne_nil (cs : List Char) : splitOnNl cs ≠ [] := by
  cases cs with
  | nil => simp [splitOnNl]
  | cons c cs =>
    simp only [splitOnNl]
    split
    · simp
    · exact consHead_ne_nil c _

theorem dropLast_cons_ne {α : Type} (a : α) (l : List α) (h : l ≠ []) :
    (a :: l).dropLast = a :: l.dropLast := by
  cases l with
  | nil => exact absurd rfl h
  | cons b m => rfl

theorem getLastD_cons_ne {α : Type} (a d : α) (l : List α) (h : l ≠ []) :
    (a :: l).getLastD d = l.getLastD d := by
  cases l with
  | nil => exact absurd rfl h
  | cons b m => rfl

theorem dropLast_append_ne {α : Type} (xs ys : List α) (h : ys ≠ []) :
    (xs ++ ys).dropLast = xs ++ ys.dropLast := by
  induction xs with
  | nil => rfl
  | cons a xs ih =>
    have hne : xs ++ ys ≠ [] := by
      intro hc
      exact h (List.append_eq_nil.mp hc).2
    rw [List.cons_append, dropLast_cons_ne a _ hne, ih, List.cons_append]

theorem getLastD_append_ne {α : Type} (xs ys : List α) (d : α) (h : ys ≠ []) :
    (xs ++ ys).getLastD d = ys.getLastD d := by
  induction xs with
  | nil => rfl
  | cons a xs ih =>
    have hne : xs ++ ys ≠ [] := by
      intro hc
      exact h (List.append_eq_nil.mp hc).2
    rw [List.cons_append, getLastD_cons_ne a d _ hne, ih]

theorem getLastD_one {α : Type} (a d : α) : [a].getLastD d = a := rfl

theorem splitOnNl_nil : splitOnNl [] = [[]] := rfl

theorem splitOnNl_cons_nl (cs : List Char) : splitOnNl ('\n' :: cs) = [] :: splitOnNl cs := by
  simp [splitOnNl]

theorem splitOnNl_cons_ne (c : Char) (cs : List Char) (h : c ≠ '\n') :
    splitOnNl (c :: cs) = consHead c (splitOnNl cs) := by
  simp [splitOnNl, h]

/-- How splitting distributes over appending: the last (incomplete)
segment of `x` glues onto the first segment of `y`.  This is the formal
content of `chatStream`'s line buffering. -/
theorem splitOnNl_append (x y : List Char) :
    splitOnNl (x ++ y) =
      (splitOnNl x).dropLast ++ glueHead ((splitOnNl x).getLastD []) (splitOnNl y) := by
  induction x with
  | nil =>
    simp only [List.nil_append, splitOnNl_nil, List.dropLast_single, getLastD_one]
    cases h : splitOnNl y with
    | nil => exact absurd h (splitOnNl_ne_nil y)
    | cons l ls => simp [glueHead]
  | cons c cs ih =>
    by_cases hc : c = '\n'
    · subst hc
      rw [List.cons_append, splitOnNl_cons_nl, splitOnNl_cons_nl, ih,
        dropLast_cons_ne _ _ (splitOnNl_ne_nil cs),
        getLastD_cons_ne _ _ _ (splitOnNl_ne_nil cs), List.cons_append]
    · rw [List.cons_append, splitOnNl_cons_ne c _ hc, splitOnNl_cons_ne c _ hc, ih]
      cases hs : splitOnNl cs with
      | nil => exact absurd hs (splitOnNl_ne_nil cs)
      | cons l ls =>
        cases ls with
        | nil =>
          simp only [List.dropLast_single, List.nil_append, getLastD_one]
          cases hy : splitOnNl y with
          | nil => exact absurd hy (splitOnNl_ne_nil y)
          | cons m ms => simp [glueHead, consHead]
        | cons l2 ls2 =>
          have hne : l2 :: ls2 ≠ [] := by simp
          simp only [consHead]
          rw [dropLast_cons_ne _ _ hne, getLastD_cons_ne _ _ _ hne,
            dropLast_cons_ne _ _ hne, getLastD_cons_ne _ _ _ hne]
          simp [glueHead]

theorem splitOnNl_of_no_nl (cs : List Char) (h : '\n' ∉ cs) : splitOnNl cs = [cs] := by
  induction cs with
  | nil => rfl
  | cons c cs ih =>
    have hc : c ≠ '\n' := by
      intro hc
      exact h (hc ▸ List.mem_cons_self c cs)
    have hcs : '\n' ∉ cs := fun hm => h (List.mem_cons_of_mem c hm)
    rw [splitOnNl_cons_ne c _ hc, ih hcs]
    rfl

theorem splitOnNl_getLastD_no_nl (cs : List Char) : '\n' ∉ (splitOnNl cs).getLastD [] := by
  induction cs with
  | nil => simp [splitOnNl_nil]
  | cons c cs ih =>
    by_cases hc : c = '\n'
    · subst hc
      rw [splitOnNl_cons_nl, getLastD_cons_ne _ _ _ (splitOnNl_ne_nil cs)]
      exact ih
    · rw [splitOnNl_cons_ne c _ hc]
      cases hs : splitOnNl cs with
      | nil => exact absurd hs (splitOnNl_ne_nil cs)
      | cons l ls =>
        rw [hs] at ih
        cases ls with
        | nil =>
          simp only [consHead, getLastD_one] at ih ⊢
          simp only [List.mem_cons, not_or]
          exact ⟨fun he => hc he.symm, ih⟩
        | cons l2 ls2 =>
          have hne : l2 :: ls2 ≠ [] := by simp
          simp only [consHead]
          rw [getLastD_cons_ne _ _ _ hne]
          rw [getLastD_cons_ne _ _ _ hne] at ih
          exact ih

/-- Processing the complete lines of `x ++ y` is processing the complete
lines of `x` and then carrying `x`'s trailing partial line into `y`. -/
theorem lineEvents_append (x y : List Char) :
    lineEvents (x ++ y) =
      (splitOnNl x).dropLast.flatMap processLine ++
        lineEvents ((splitOnNl x).getLastD [] ++ y) := by
  have hlast : '\n' ∉ (splitOnNl x).getLastD [] := splitOnNl_getLastD_no_nl x
  have h1 : splitOnNl ((splitOnNl x).getLastD [] ++ y) =
      glueHead ((splitOnNl x).getLastD []) (splitOnNl y) := by
    rw [splitOnNl_append, splitOnNl_of_no_nl _ hlast, List.dropLast_single,
      getLastD_one, List.nil_append]
  unfold lineEvents
  rw [splitOnNl_append x y, h1,
    dropLast_append_ne _ _ (glueHead_ne_nil _ _), List.flatMap_append]

/-- Processing a stream that starts with the complete line `l`. -/
theorem lineEvents_line (l y : List Char) (h : '\n' ∉ l) :
    lineEvents ((l ++ ['\n']) ++ y) = processLine l ++ lineEvents y := by
  have h1 : splitOnNl (l ++ ['\n']) = [l, []] := by
    rw [splitOnNl_append, splitOnNl_of_no_nl _ h, List.dropLast_single, getLastD_one]
    simp [splitOnNl_cons_nl, splitOnNl_nil, glueHead]
  rw [lineEvents_append (l ++ ['\n']) y, h1]
  simp

/-- The read loop is line processing of the concatenated stream: carrying
a newline-free buffer, `chatStream`'s loop over any chunk list emits the
events of every complete line of `buffer ++ chunks.flatten`, in order. -/
theorem chatStreamRun_eq (chunks : List (List Char)) (buffer : List Char)
    (h : '\n' ∉ buffer) :
    chatStreamRun buffer chunks = lineEvents (buffer ++ chunks.flatten) := by
  induction chunks generalizing buffer with
  | nil =>
    simp [chatStreamRun, lineEvents, splitOnNl_of_no_nl _ h]
  | cons c cs ih =>
    simp only [chatStreamRun, chatStreamStep]
    rw [ih _ (splitOnNl_getLastD_no_nl _), List.flatten_cons, ← List.append_assoc,
      lineEvents_append (buffer ++ c) cs.flatten]

/-- A single-chunk run is line processing of that chunk. -/
theorem chatStreamEvents_single (s : List Char) : chatStreamEvents [s] = lineEvents s := by
  have h := chatStreamRun_eq [s] [] (by simp)
  simpa [chatStreamEvents] using h

theorem glueHead_nil_of_ne (ls : List (List Char)) (h : ls ≠ []) : glueHead [] ls = ls := by
  cases ls with
  | nil => exact absurd rfl h
  | cons l ls => simp [glueHead]

/-- A text ending in `'\n'` leaves an empty carry buffer. -/
theorem splitOnNl_trailing_nl (z : List Char) : (splitOnNl (z ++ ['\n'])).getLastD [] = [] := by
  rw [splitOnNl_append]
  have h1 : splitOnNl ['\n'] = [[], []] := by
    rw [splitOnNl_cons_nl, splitOnNl_nil]
  rw [h1]
  cases hz : (splitOnNl z).getLastD [] with
  | nil =>
    rw [glueHead]
    rw [getLastD_append_ne _ _ _ (by simp), getLastD_cons_ne _ _ _ (by simp), getLastD_one]
  | cons c cs =>
    rw [glueHead]
    rw [getLastD_append_ne _ _ _ (by simp), getLastD_cons_ne _ _ _ (by simp), getLastD_one]

/-- After a complete (newline-terminated) prefix, the carry buffer is
determined by the rest of the stream alone. -/
theorem splitOnNl_getLastD_after_line (z y : List Char) :
    (splitOnNl ((z ++ ['\n']) ++ y)).getLastD [] = (splitOnNl y).getLastD [] := by
  rw [splitOnNl_append (z ++ ['\n']) y, splitOnNl_trailing_nl z,
    glueHead_nil_of_ne _ (splitOnNl_ne_nil y),
    getLastD_append_ne _ _ _ (splitOnNl_ne_nil y)]

/-- A single-chunk stream of complete lines is processed line by line. -/
theorem lineEvents_joinNl (lines : List (List Char)) (h : ∀ l ∈ lines, '\n' ∉ l) :
    lineEvents (joinNl lines) = lines.flatMap processLine := by
  induction lines with
  | nil => rfl
  | cons l ls ih =>
    have h1 : joinNl (l :: ls) = (l ++ ['\n']) ++ joinNl ls := by simp [joinNl]
    rw [h1, lineEvents_line l _ (h l (List.mem_cons_self l ls)),
      ih (fun x hx => h x (List.mem_cons_of_mem l hx)), List.flatMap_cons]

theorem chatStreamEvents_joinNl (lines : List (List Char)) (h : ∀ l ∈ lines, '\n' ∉ l) :
    chatStreamEvents [joinNl lines] = lines.flatMap processLine := by
  rw [chatStreamEvents_single, lineEvents_joinNl lines h]

theorem processLine_not_data (l : List Char) (h : startsWithChars dataMarker l = false) :
    processLine l = [] := by
  simp [processLine, h]

theorem processLine_bad_json (l : List Char)
    (h1 : startsWithChars dataMarker l = true) (h2 : jsonParse (l.drop 6) = none) :
    processLine l = [] := by
  simp [processLine, h1, h2]

theorem processLine_data (l : List Char) (j : Json)
    (h1 : startsWithChars dataMarker l = true)
    (h2 : jsonParse (l.drop 6) = some j) :
    processLine l = dispatchPayload j := by
  simp [processLine, h1, h2]

theorem dispatchPayload_unknown_type (j : Json) (h : hasKnownType j = false) :
    dispatchPayload j = [] := by
  cases j with
  | null => rfl
  | bool b => rfl
  | num n => rfl
  | str s => rfl
  | arr es => rfl
  | obj ms =>
    show (match jsGet (Json.obj ms) "type".toList with
      | some (Json.str t) =>
        if t = "text".toList then [SSEEvent.text (jsGet (Json.obj ms) "content".toList)]
        else if t = "suggestions".toList then
          [SSEEvent.suggestions (jsGet (Json.obj ms) "suggestions".toList)]
        else if t = "cart_add".toList then
          [SSEEvent.cartAdd (jsGet (Json.obj ms) "items".toList)]
        else if t = "done".toList then [SSEEvent.done]
        else if t = "error".toList then [SSEEvent.error (jsGet (Json.obj ms) "message".toList)]
        else []
      | _ => []) = []
    unfold hasKnownType at h
    cases hjt : jsGet (Json.obj ms) "type".toList with
    | none => rfl
    | some v =>
      rw [hjt] at h
      cases v with
      | str t =>
        simp only [Bool.or_eq_false_iff, beq_eq_false_iff_ne, ne_eq] at h
        obtain ⟨⟨⟨⟨ht1, ht2⟩, ht3⟩, ht4⟩, ht5⟩ := h
        simp at ht1 ht2 ht3 ht4 ht5
        simp [ht1, ht2, ht3, ht4, ht5]
      | null => rfl
      | bool b => rfl
      | num n => rfl
      | arr es => rfl
      | obj ms2 => rfl

theorem objGet_objSet (m : List (String × String)) (k v : String) :
    objGet (objSet m k v) k = some v := by
  induction m with
  | nil => simp [objSet, objGet]
  | cons kv rest ih =>
    obtain ⟨k', v'⟩ := kv
    by_cases h : k' = k
    · subst h
      simp [objSet, objGet]
    · simp [objSet, objGet, h, ih]

theorem dispatchPayload_of_type (j : Json) (t : List Char)
    (ht : jsGet j "type".toList = some (Json.str t)) :
    dispatchPayload j =
      (if t = "text".toList then [SSEEvent.text (jsGet j "content".toList)]
       else if t = "suggestions".toList then
         [SSEEvent.suggestions (jsGet j "suggestions".toList)]
       else if t = "cart_add".toList then [SSEEvent.cartAdd (jsGet j "items".toList)]
       else if t = "done".toList then [SSEEvent.done]
       else if t = "error".toList then [SSEEvent.error (jsGet j "message".toList)]
       else []) := by
  cases j with
  | null => simp [jsGet] at ht
  | bool b => simp [jsGet] at ht
  | num n => simp [jsGet] at ht
  | str s => simp [jsGet] at ht
  | arr es => simp [jsGet] at ht
  | obj ms =>
    show (match jsGet (Json.obj ms) "type".toList with
      | some (Json.str t) =>
        if t = "text".toList then [SSEEvent.text (jsGet (Json.obj ms) "content".toList)]
        else if t = "suggestions".toList then
          [SSEEvent.suggestions (jsGet (Json.obj ms) "suggestions".toList)]
        else if t = "cart_add".toList then
          [SSEEvent.cartAdd (jsGet (Json.obj ms) "items".toList)]
        else if t = "done".toList then [SSEEvent.done]
        else if t = "error".toList then [SSEEvent.error (jsGet (Json.obj ms) "message".toList)]
        else []
      | _ => []) = _
    rw [ht]

/-- Inserting a line that the loop skips changes nothing downstream. -/
theorem insertion_invariance (pre post : List (List Char)) (l : List Char)
    (hpre : ∀ x ∈ pre, '\n' ∉ x) (hpost : ∀ x ∈ post, '\n' ∉ x) (hl : '\n' ∉ l)
    (hskip : processLine l = []) :
    chatStreamEvents [joinNl (pre ++ [l] ++ post)] = chatStreamEvents [joinNl (pre ++ post)] := by
  have hall : ∀ x ∈ pre ++ [l] ++ post, '\n' ∉ x := by
    intro x hx
    rcases List.mem_append.mp hx with hx | hx
    · rcases List.mem_append.mp hx with hx | hx
      · exact hpre x hx
      · rw [List.mem_singleton.mp hx]
        exact hl
    · exact hpost x hx
  have hall2 : ∀ x ∈ pre ++ post, '\n' ∉ x := by
    intro x hx
    rcases List.mem_append.mp hx with hx | hx
    · exact hpre x hx
    · exact hpost x hx
  rw [chatStreamEvents_joinNl _ hall, chatStreamEvents_joinNl _ hall2]
  simp [List.flatMap_append, hskip]

/-- The carry buffer after a prefix of complete lines is determined by
the rest of the stream alone. -/
theorem buffer_joinNl (lines : List (List Char)) (rest : List Char) :
    (splitOnNl (joinNl lines ++ rest)).getLastD [] = (splitOnNl rest).getLastD [] := by
  induction lines with
  | nil => simp [joinNl]
  | cons l ls ih =>
    have h1 : joinNl (l :: ls) ++ rest = (l ++ ['\n']) ++ (joinNl ls ++ rest) := by
      simp [joinNl]
    rw [h1, splitOnNl_getLastD_after_line, ih]

/-- C2: for every stream and every way of splitting it into chunks
(mid-line splits included), `chatStream`'s parse loop emits the same
callbacks, in the same order, with the same arguments, as on the unsplit
stream.  (Byte-level splits inside a multi-byte character are covered
because `TextDecoder` in stream mode turns any byte chunking into string
chunks with the same concatenation, and the theorem quantifies over all
string chunkings.) -/
theorem chatStream_chunk_invariance (chunks : List (List Char)) :
    chatStreamEvents chunks = chatStreamEvents [chunks.flatten] := by
  have h1 : chatStreamEvents chunks = lineEvents (([] : List Char) ++ chunks.flatten) :=
    chatStreamRun_eq chunks [] (by simp)
  rw [List.nil_append] at h1
  rw [h1, chatStreamEvents_single]

/-- C3: a `data: ` line whose remainder is not valid JSON invokes no
callback and does not terminate the loop: the stream with the malformed
line processes exactly like the stream without it. -/
theorem chatStream_malformed_json_skipped (pre post : List (List Char)) (l : List Char)
    (hpre : ∀ x ∈ pre, '\n' ∉ x) (hpost : ∀ x ∈ post, '\n' ∉ x) (hl : '\n' ∉ l)
    (hdata : startsWithChars dataMarker l = true)
    (hbad : jsonParse (l.drop 6) = none) :
    processLine l = [] ∧
      chatStreamEvents [joinNl (pre ++ [l] ++ post)] =
        chatStreamEvents [joinNl (pre ++ post)] :=
  ⟨processLine_bad_json l hdata hbad,
    insertion_invariance pre post l hpre hpost hl (processLine_bad_json l hdata hbad)⟩

/-- C3 witness: a malformed `data: {bad` line before a `done` line. -/
theorem chatStream_malformed_json_skipped_witness :
    processLine "data: \x7bbad".toList = [] ∧
      chatStreamEvents [joinNl ([] ++ ["data: \x7bbad".toList] ++ [doneLine])] =
        chatStreamEvents [joinNl ([] ++ [doneLine])] :=
  chatStream_malformed_json_skipped [] [doneLine] "data: \x7bbad".toList
    (by simp) (by decide) (by decide) (by rfl) (by rfl)

/-- C4: a complete line not beginning with `data: ` invokes no callback
and leaves the line buffer untouched (the carry buffer after any step is
the same with the line present or absent), so subsequent lines parse
exactly as without it. -/
theorem chatStream_non_data_line_ignored (pre post : List (List Char)) (l : List Char)
    (hpre : ∀ x ∈ pre, '\n' ∉ x) (hpost : ∀ x ∈ post, '\n' ∉ x) (hl : '\n' ∉ l)
    (hdata : startsWithChars dataMarker l = false) :
    processLine l = [] ∧
      (∀ rest, (chatStreamStep [] (joinNl (pre ++ [l] ++ post) ++ rest)).1 =
        (chatStreamStep [] (joinNl (pre ++ post) ++ rest)).1) ∧
      chatStreamEvents [joinNl (pre ++ [l] ++ post)] =
        chatStreamEvents [joinNl (pre ++ post)] := by
  refine ⟨processLine_not_data l hdata, ?_, ?_⟩
  · intro rest
    show (splitOnNl ([] ++ (joinNl (pre ++ [l] ++ post) ++ rest))).getLastD [] =
      (splitOnNl ([] ++ (joinNl (pre ++ post) ++ rest))).getLastD []
    rw [List.nil_append, List.nil_append, buffer_joinNl, buffer_joinNl]
  · exact insertion_invariance pre post l hpre hpost hl (processLine_not_data l hdata)

/-- C4 witness: an `event: ping` line before a `done` line. -/
theorem chatStream_non_data_line_ignored_witness :
    processLine "event: ping".toList = [] ∧
      (∀ rest, (chatStreamStep []
          (joinNl ([] ++ ["event: ping".toList] ++ [doneLine]) ++ rest)).1 =
        (chatStreamStep [] (joinNl ([] ++ [doneLine]) ++ rest)).1) ∧
      chatStreamEvents [joinNl ([] ++ ["event: ping".toList] ++ [doneLine])] =
        chatStreamEvents [joinNl ([] ++ [doneLine])] :=
  chatStream_non_data_line_ignored [] [doneLine] "event: ping".toList
    (by simp) (by decide) (by decide) (by rfl)

/-- C9: a well-formed `data: ` JSON line whose `type` is absent or not
one of the five recognized values invokes no callback and has no effect
on subsequent lines. -/
theorem chatStream_unknown_type_ignored (pre post : List (List Char)) (l : List Char)
    (j : Json)
    (hpre : ∀ x ∈ pre, '\n' ∉ x) (hpost : ∀ x ∈ post, '\n' ∉ x) (hl : '\n' ∉ l)
    (hdata : startsWithChars dataMarker l = true)
    (hjson : jsonParse (l.drop 6) = some j)
    (hunk : hasKnownType j = false) :
    processLine l = [] ∧
      chatStreamEvents [joinNl (pre ++ [l] ++ post)] =
        chatStreamEvents [joinNl (pre ++ post)] := by
  have hskip : processLine l = [] := by
    rw [processLine_data l j hdata hjson, dispatchPayload_unknown_type j hunk]
  exact ⟨hskip, insertion_invariance pre post l hpre hpost hl hskip⟩

/-- C9 witness: a payload with `type` `"weird"` before a `done` line. -/
theorem chatStream_unknown_type_ignored_witness :
    processLine "data: \x7b\"type\":\"weird\"\x7d".toList = [] ∧
      chatStreamEvents
          [joinNl ([] ++ ["data: \x7b\"type\":\"weird\"\x7d".toList] ++ [doneLine])] =
        chatStreamEvents [joinNl ([] ++ [doneLine])] :=
  chatStream_unknown_type_ignored [] [doneLine] "data: \x7b\"type\":\"weird\"\x7d".toList
    (Json.obj [("type".toList, Json.str "weird".toList)])
    (by simp) (by decide) (by decide) (by rfl) (by rfl) (by rfl)

/-- C6: a well-formed `data: ` line dispatches on the payload's `type`
to exactly one callback, passing the payload field of that kind:
`text` to onChunk with `content`, `suggestions` to onSuggestions with
`suggestions`, `cart_add` to onCartAdd with `items`, `done` to onDone
without payload, `error` to onError with `message`. -/
theorem chatStream_dispatch_by_type (l : List Char) (j : Json)
    (hdata : startsWithChars dataMarker l = true)
    (hjson : jsonParse (l.drop 6) = some j) :
    (jsGet j "type".toList = some (Json.str "text".toList) →
      processLine l = [SSEEvent.text (jsGet j "content".toList)]) ∧
    (jsGet j "type".toList = some (Json.str "suggestions".toList) →
      processLine l = [SSEEvent.suggestions (jsGet j "suggestions".toList)]) ∧
    (jsGet j "type".toList = some (Json.str "cart_add".toList) →
      processLine l = [SSEEvent.cartAdd (jsGet j "items".toList)]) ∧
    (jsGet j "type".toList = some (Json.str "done".toList) →
      processLine l = [SSEEvent.done]) ∧
    (jsGet j "type".toList = some (Json.str "error".toList) →
      processLine l = [SSEEvent.error (jsGet j "message".toList)]) := by
  have hd := processLine_data l j hdata hjson
  refine ⟨fun ht => ?_, fun ht => ?_, fun ht => ?_, fun ht => ?_, fun ht => ?_⟩
  · rw [hd, dispatchPayload_of_type j _ ht, if_pos rfl]
  · rw [hd, dispatchPayload_of_type j _ ht, if_neg (by decide), if_pos rfl]
  · rw [hd, dispatchPayload_of_type j _ ht, if_neg (by decide), if_neg (by decide),
      if_pos rfl]
  · rw [hd, dispatchPayload_of_type j _ ht, if_neg (by decide), if_neg (by decide),
      if_neg (by decide), if_pos rfl]
  · rw [hd, dispatchPayload_of_type j _ ht, if_neg (by decide), if_neg (by decide),
      if_neg (by decide), if_neg (by decide), if_pos rfl]

/-- C6 witness: a `text` payload line carrying content `"Hi"`. -/
theorem chatStream_dispatch_by_type_witness :
    processLine "data: \x7b\"type\":\"text\",\"content\":\"Hi\"\x7d".toList =
      [SSEEvent.text (jsGet
        (Json.obj [("type".toList, Json.str "text".toList),
          ("content".toList, Json.str "Hi".toList)]) "content".toList)] :=
  (chatStream_dispatch_by_type "data: \x7b\"type\":\"text\",\"content\":\"Hi\"\x7d".toList
    (Json.obj [("type".toList, Json.str "text".toList),
      ("content".toList, Json.str "Hi".toList)])
    (by rfl) (by rfl)).1 (by rfl)

/-- C5: the spec's worked example: the three chunks (with the `done`
payload split mid-line) emit exactly onChunk("Hi") then onDone(). -/
theorem chatStream_example_run :
    chatStreamEvents
        ["data: \x7b\"type\":\"text\",\"content\":\"Hi\"\x7d\n".toList,
         "data: \x7b\"typ".toList,
         "e\":\"done\"\x7d\n\n".toList] =
      [SSEEvent.text (some (Json.str "Hi".toList)), SSEEvent.done] := by
  rfl

/-- C1 counterexample: with the transport still open, a valid `data: `
line arriving after the `done` payload still invokes its callback: the
trace is `done` followed by `text "Hi"`, so the claimed property — no
callback after a terminal payload — is false on this concrete input. -/
theorem chatStream_stops_at_done_cex :
    noCallbackAfterTerminal (chatStreamEvents
      ["data: \x7b\"type\":\"done\"\x7d\ndata: \x7b\"type\":\"text\",\"content\":\"Hi\"\x7d\n".toList])
      = false := by
  rfl

/-- C1 (amended): processing a line whose payload is terminal — type
`done` or type `error` — does not stop the loop: the code has no `break`
or `return` in those branches, so callbacks for `data: ` lines after the
terminal payload are still invoked while the transport stays open; the
loop ends only on transport close.  The events around any terminal line
are exactly the line-by-line events of the rest of the stream. -/
theorem chatStream_continues_after_terminal (pre post : List (List Char)) (l : List Char)
    (e : SSEEvent)
    (hpre : ∀ x ∈ pre, '\n' ∉ x) (hpost : ∀ x ∈ post, '\n' ∉ x) (hl : '\n' ∉ l)
    (hterm : processLine l = [e]) (_hte : isTerminalEvent e = true) :
    chatStreamEvents [joinNl (pre ++ [l] ++ post)] =
      pre.flatMap processLine ++ [e] ++ post.flatMap processLine := by
  have hall : ∀ x ∈ pre ++ [l] ++ post, '\n' ∉ x := by
    intro x hx
    rcases List.mem_append.mp hx with hx | hx
    · rcases List.mem_append.mp hx with hx | hx
      · exact hpre x hx
      · rw [List.mem_singleton.mp hx]
        exact hl
    · exact hpost x hx
  rw [chatStreamEvents_joinNl _ hall]
  simp [List.flatMap_append, hterm]

/-- C1 amended witness: a `text` line after a `done` line, and after an
`error` line, still emits its `text` event. -/
theorem chatStream_continues_after_terminal_witness :
    (chatStreamEvents [joinNl ([] ++ [doneLine] ++
        ["data: \x7b\"type\":\"text\",\"content\":\"Hi\"\x7d".toList])] =
      [SSEEvent.done, SSEEvent.text (some (Json.str "Hi".toList))]) ∧
    (chatStreamEvents [joinNl ([] ++ [errorLine] ++
        ["data: \x7b\"type\":\"text\",\"content\":\"Hi\"\x7d".toList])] =
      [SSEEvent.error (some (Json.str "boom".toList)),
        SSEEvent.text (some (Json.str "Hi".toList))]) :=
  ⟨(chatStream_continues_after_terminal []
      ["data: \x7b\"type\":\"text\",\"content\":\"Hi\"\x7d".toList]
      doneLine SSEEvent.done
      (by simp) (by decide) (by decide) (by rfl) (by rfl)).trans (by rfl),
    (chatStream_continues_after_terminal []
      ["data: \x7b\"type\":\"text\",\"content\":\"Hi\"\x7d".toList]
      errorLine (SSEEvent.error (some (Json.str "boom".toList)))
      (by simp) (by decide) (by decide) (by rfl) (by rfl)).trans (by rfl)⟩

/-- C7: `startStatusProgression` registers exactly three deferred remote
updates, in the order confirmed, shipped, delivered, with delays 5 s,
15 s and 30 s from order creation — directly in the `forEach` variant,
and as the cumulative fire times of the chained `processNextStatus`
variant (with instantaneous remote updates). -/
theorem startStatusProgression_schedules (store : Store) (orderId : Nat) (now : String) :
    (startStatusProgression store orderId now).2 =
        [("confirmed", 5000), ("shipped", 15000), ("delivered", 30000)] ∧
      statusSequence.map Prod.fst = ["confirmed", "shipped", "delivered"] ∧
      chainFireTime 0 = 5000 ∧ chainFireTime 1 = 15000 ∧ chainFireTime 2 = 30000 :=
  ⟨rfl, rfl, rfl, rfl, rfl⟩

theorem statusSequence_eq :
    statusSequence = [("confirmed", 5000), ("shipped", 15000), ("delivered", 30000)] := rfl

/-- C8: when the remote update of one status fails, that step saves no
timestamp and dispatches no `orderStatusChange` event — the failure is
only logged — and every later status transition is still attempted. -/
theorem processNextStatus_failure_skipped (ok : String → Bool) (s : String)
    (hs : s ∈ statusSequence.map Prod.fst) (hfail : ok s = false) :
    StatusStepEvent.save s ∉ processNextStatus ok statusSequence ∧
      StatusStepEvent.dispatchEvent s ∉ processNextStatus ok statusSequence ∧
      StatusStepEvent.logError s ∈ processNextStatus ok statusSequence ∧
      ∀ s2 ∈ statusSequence.map Prod.fst,
        StatusStepEvent.apiCall s2 ∈ processNextStatus ok statusSequence := by
  rw [statusSequence_eq] at hs ⊢
  have hs3 : s = "confirmed" ∨ s = "shipped" ∨ s = "delivered" := by
    simpa using hs
  rcases hs3 with rfl | rfl | rfl <;>
    cases hc : ok "confirmed" <;> cases hsh : ok "shipped" <;> cases hd : ok "delivered" <;>
      simp_all [processNextStatus]

/-- C8 witness: only the `shipped` update fails; its timestamp and event
are absent, its failure is logged, and all three updates are attempted. -/
theorem processNextStatus_failure_skipped_witness :
    StatusStepEvent.save "shipped" ∉
        processNextStatus (fun t => t != "shipped") statusSequence ∧
      StatusStepEvent.dispatchEvent "shipped" ∉
        processNextStatus (fun t => t != "shipped") statusSequence ∧
      StatusStepEvent.logError "shipped" ∈
        processNextStatus (fun t => t != "shipped") statusSequence ∧
      ∀ s2 ∈ statusSequence.map Prod.fst,
        StatusStepEvent.apiCall s2 ∈
          processNextStatus (fun t => t != "shipped") statusSequence :=
  processNextStatus_failure_skipped (fun t => t != "shipped") "shipped"
    (by decide) (by decide)

/-- C10: `startStatusProgression` saves the `pending` timestamp
synchronously — before any timer fires and independent of the remote
updates' outcomes — so `getStatusTimestamps` for the order always has a
`pending` key afterwards. -/
theorem startStatusProgression_pending_saved (store : Store) (orderId : Nat) (now : String) :
    objGet (getStatusTimestamps (startStatusProgression store orderId now).1 orderId)
      "pending" = some now := by
  show objGet (((saveTimestamp store orderId "pending" now)
    (getStorageKey orderId)).getD []) "pending" = some now
  unfold saveTimestamp
  rw [if_pos rfl]
  simp [objGet_objSet]
